import Mathlib

/-!
Verification of the univariate-analysis tool (`src/universal.py`).

Shallow embedding: pandas Series of a numeric column become `List (Option ℚ)`
(`none` is a missing cell / NaN), object columns become `List (Option String)`;
`astype(str)` turns missing cells into the literal string "nan".  Machine
floats are modelled by exact rationals.  The plotting backend is modelled by
its observable contract: a write environment `w : String → Bool` telling
whether writing a given file succeeds; `plt.savefig` raising an exception is
an `Except.error`, which (as in the Python) is *not* caught inside
`save_bar_plot` and therefore propagates to the caller.
-/

namespace Universal

/-- Dtypes `pd.read_csv` can infer for a column: integers, floats, booleans
(columns of True/False literals), and `object` (strings / mixed).
Models the dtype argument of `pd.api.types.is_numeric_dtype`. -/
inductive Dtype
  | int64
  | float64
  | boolean
  | object_
deriving DecidableEq

/-- `pd.api.types.is_numeric_dtype`: true for integer, float and boolean
dtypes (pandas documents booleans as numeric), false for `object`. -/
def is_numeric_dtype : Dtype → Bool
  | .object_ => false
  | _ => true

/-- The two summarization paths of `univariate_analysis`. -/
inductive Kind
  | numeric
  | categorical
deriving DecidableEq

/-- The column classifier of `univariate_analysis` (line 104):
`if pd.api.types.is_numeric_dtype(df[col]) ... else ...`. -/
def classifyColumn (d : Dtype) : Kind :=
  if is_numeric_dtype d then .numeric else .categorical

/-! ### Numeric series primitives -/

/-- `series.dropna()`: the present (non-missing) values. -/
def dropna (s : List (Option ℚ)) : List ℚ := s.filterMap id

/-- `series.isna().sum()`: number of missing cells. -/
def isnaSum (s : List (Option ℚ)) : ℕ := (s.filter (fun c => c.isNone)).length

/-- `non_null.min()`: minimum of the present values (0 on an empty series,
which the code never queries thanks to the early return). -/
def seriesMin (l : List ℚ) : ℚ := (l.min?).getD 0

/-- `non_null.max()`. -/
def seriesMax (l : List ℚ) : ℚ := (l.max?).getD 0

/-- The values in ascending order (numpy/pandas sort internally before
computing order statistics). -/
def sortedVals (l : List ℚ) : List ℚ := List.insertionSort (· ≤ ·) l

/-- Linear interpolation at fractional rank `r` over an ascending value
array: the value `g` of the way between order statistics `⌊r⌋` and
`⌊r⌋ + 1`, where `g = r − ⌊r⌋`. -/
def interpolateAt (srt : List ℚ) (r : ℚ) : ℚ :=
  let i : ℕ := (Int.floor r).toNat
  let g : ℚ := r - (i : ℚ)
  srt.getD i 0 + g * (srt.getD (i + 1) 0 - srt.getD i 0)

/-- `np.percentile(non_null, p)` with the default linear interpolation:
on the `n` sorted values the rank is `p/100·(n−1)`; the result interpolates
between the two bracketing order statistics. -/
def percentile (l : List ℚ) (p : ℚ) : ℚ :=
  let srt := sortedVals l
  interpolateAt srt (p * ((srt.length : ℚ) - 1) / 100)

/-- The fixed percentile set of `summarize_numeric` (line 50). -/
def pctiles : List ℚ := [0, 1, 5, 25, 50, 75, 95, 99, 100]

/-- `non_null.mode()`: all values of maximal frequency, in ascending order
(pandas returns the modes sorted). -/
def modeList (l : List ℚ) : List ℚ :=
  List.insertionSort (· ≤ ·)
    (l.dedup.filter (fun v => l.all (fun u => l.count u ≤ l.count v)))

/-- `min(len(non_null.unique()), 20)` (line 53). -/
def bin_count (l : List ℚ) : ℕ := min l.dedup.length 20

/-- The range adjustment pandas applies in `pd.cut` when all values are
equal: the span is widened by 0.1% of the magnitude (0.001 if zero). -/
def cutAdjust (x : ℚ) : ℚ := if x = 0 then 1 / 1000 else |x| / 1000

/-- The bin edges `pd.cut(non_null, bins=k, include_lowest=True)` uses:
`k+1` equally spaced edges over `[min, max]`; when `min = max` the span is
first widened on both sides; otherwise the leftmost edge is lowered by
0.1% of the range so the minimum falls inside the first bin. -/
def cutEdge (mn mx : ℚ) (k j : ℕ) : ℚ :=
  if mn = mx then
    (mn - cutAdjust mn) + (j : ℚ) * ((mx + cutAdjust mx) - (mn - cutAdjust mn)) / (k : ℚ)
  else if j = 0 then mn - (mx - mn) / 1000
  else mn + (j : ℚ) * (mx - mn) / (k : ℚ)

/-- The 0-based bin a value falls into: the first interval
`(edge j, edge (j+1)]` containing it. -/
def binIdx (mn mx : ℚ) (k : ℕ) (v : ℚ) : ℕ :=
  ((List.range k).find? (fun j => decide (v ≤ cutEdge mn mx k (j + 1)))).getD 0

/-- `pd.cut(non_null, bins=bin_count, include_lowest=True).value_counts().sort_index()`
(line 54): for each of the `bin_count` bins in ascending order, its interval
and the number of present values it holds. -/
def freqBins (l : List ℚ) : List ((ℚ × ℚ) × ℕ) :=
  let k := bin_count l
  let mn := seriesMin l
  let mx := seriesMax l
  (List.range k).map (fun j =>
    ((cutEdge mn mx k j, cutEdge mn mx k (j + 1)),
     (l.filter (fun v => binIdx mn mx k v == j)).length))

/-- The record printed by `summarize_numeric` (lines 45–66). -/
structure NumericSummary where
  obs : ℕ
  missing : ℕ
  zeros : ℕ
  lo : ℚ
  hi : ℚ
  mean : ℚ
  median : ℚ
  mode : Option ℚ
  pct : List ℚ
  freq : List ((ℚ × ℚ) × ℕ)
deriving DecidableEq

/-- The statistics `summarize_numeric` computes once the present set is
known non-empty (lines 45–54).  `obs = len(series)` counts every row,
missing or not; `mode` is `none` exactly when the fallback
`np.nan` branch of line 48 is taken. -/
def numericSummaryOf (s : List (Option ℚ)) : NumericSummary :=
  let non_null := dropna s
  { obs := s.length
    missing := isnaSum s
    zeros := non_null.count 0
    lo := seriesMin non_null
    hi := seriesMax non_null
    mean := non_null.sum / (non_null.length : ℚ)
    median := percentile non_null 50
    mode := match modeList non_null with
      | [] => none
      | x :: _ => some x
    pct := pctiles.map (percentile non_null)
    freq := freqBins non_null }

/-! ### Chart renderer contract -/

/-- Outcome of a successful `save_bar_plot` call. -/
inductive ChartResult
  | skippedEmpty
  | saved
deriving DecidableEq

/-- `save_bar_plot` (lines 13–36): prints a skip message and returns when the
data is empty; otherwise attempts `plt.savefig`.  A failed write raises — the
Python has no try/except here, so the exception escapes as `Except.error`. -/
def save_bar_plot {α : Type} (data : List (α × ℕ)) (filename : String)
    (w : String → Bool) : Except String ChartResult :=
  if data.isEmpty then .ok .skippedEmpty
  else if w filename then .ok .saved
  else .error filename

/-- `f"{name.replace(' ', '_').lower()}_distribution.png"` (lines 68, 97). -/
def plotFilename (name : String) : String :=
  (name.replace " " "_").toLower ++ "_distribution.png"

/-! ### Numeric summarizer -/

/-- What `summarize_numeric` emits for one column: either only the
`[No valid data to summarize]` note, or the full summary together with the
chart outcome (`none` when `plt.savefig` raised before any outcome). -/
inductive NumOutcome
  | noData
  | summary (s : NumericSummary) (chart : Option ChartResult)
deriving DecidableEq

/-- `summarize_numeric` (lines 38–69).  Returns the emitted report and an
abort flag: `true` iff an exception escaped (chart write failure). -/
def summarize_numeric (s : List (Option ℚ)) (name : String)
    (w : String → Bool) : NumOutcome × Bool :=
  let non_null := dropna s
  if non_null.isEmpty then (.noData, false)
  else
    let summ := numericSummaryOf s
    match save_bar_plot summ.freq (plotFilename name) w with
    | .ok c => (.summary summ (some c), false)
    | .error _ => (.summary summ none, true)

/-! ### Categorical summarizer -/

/-- `series.value_counts()`: one `(category, count)` pair per distinct value,
sorted by descending count (a stable sort, so ties keep a fixed deterministic
order of the distinct values). -/
def value_counts (l : List String) : List (String × ℕ) :=
  List.insertionSort (fun a b => b.2 ≤ a.2)
    (l.dedup.map (fun v => (v, l.count v)))

/-- `counts.idxmax()` paired with its count: the first entry attaining the
maximal count. -/
def idxmaxEntry (cs : List (String × ℕ)) : Option (String × ℕ) :=
  cs.argmax (fun p => p.2)

/-- `counts.idxmin()` paired with its count: the first entry attaining the
minimal count. -/
def idxminEntry (cs : List (String × ℕ)) : Option (String × ℕ) :=
  cs.argmin (fun p => p.2)

/-- The report `summarize_categorical` prints (lines 71–98). -/
structure CatReport where
  uniqueCount : ℕ
  /-- the frequency rows actually displayed -/
  shown : List (String × ℕ)
  /-- `... and n more categories.` note, when truncated -/
  moreNote : Option ℕ
  /-- the `Most Frequent` / `Least Frequent` lines, when printed -/
  mostLeast : Option ((String × ℕ) × (String × ℕ))
  /-- chart outcome; `none` when `save_bar_plot` was never invoked or raised -/
  chart : Option ChartResult
deriving DecidableEq

/-- `summarize_categorical` (lines 71–98).  Note the most/least-frequent
lines (lines 88–91) are printed whenever `counts` is non-empty — *before*
the `> 50` early return that suppresses only the chart (lines 93–95).
Returns the report and the abort flag (`true` iff the chart write raised). -/
def summarize_categorical (series : List String) (name : String)
    (w : String → Bool) : CatReport × Bool :=
  let counts := value_counts series
  let shown := if counts.length > 50 then counts.take 10 else counts
  let moreNote := if counts.length > 50 then some (counts.length - 10) else none
  let mostLeast := match idxmaxEntry counts, idxminEntry counts with
    | some mf, some lf => some (mf, lf)
    | _, _ => none
  if counts.length > 50 then
    ({ uniqueCount := counts.length, shown := shown, moreNote := moreNote,
       mostLeast := mostLeast, chart := none }, false)
  else
    match save_bar_plot counts (plotFilename name) w with
    | .ok c =>
        ({ uniqueCount := counts.length, shown := shown, moreNote := moreNote,
           mostLeast := mostLeast, chart := some c }, false)
    | .error _ =>
        ({ uniqueCount := counts.length, shown := shown, moreNote := moreNote,
           mostLeast := mostLeast, chart := none }, true)

/-! ### Orchestrator -/

/-- `df[col].astype(str)`: a missing cell becomes the string pandas prints
for NaN, so missing values are a category of their own (line 107). -/
def astypeStr : Option String → String
  | none => "nan"
  | some v => v

/-- One column of the loaded DataFrame.  A column whose dtype satisfies
`is_numeric_dtype` (int64/float64/bool) carries rational cells; an `object`
column carries string cells. -/
inductive ColumnData
  | numericData (vals : List (Option ℚ))
  | objectData (vals : List (Option String))
deriving DecidableEq

/-- A named column. -/
structure Column where
  name : String
  data : ColumnData
deriving DecidableEq

/-- The per-column section printed by `univariate_analysis`. -/
inductive ColReport
  | numericR (name : String) (o : NumOutcome)
  | catR (name : String) (r : CatReport)
deriving DecidableEq

/-- The dispatch inside the loop of `univariate_analysis` (lines 103–107). -/
def summarizeColumn (c : Column) (w : String → Bool) : ColReport × Bool :=
  match c.data with
  | .numericData vals =>
      let (o, ab) := summarize_numeric vals c.name w
      (.numericR c.name o, ab)
  | .objectData vals =>
      let (r, ab) := summarize_categorical (vals.map astypeStr) c.name w
      (.catR c.name r, ab)

/-- `univariate_analysis` (lines 100–109): columns are processed in order;
an exception escaping a summarizer aborts the loop (it is only caught by the
`try/except` around the whole analysis in `main`, lines 120–125), so the
remaining columns produce no report.  Returns the reports emitted and
whether the run was aborted. -/
def univariate_analysis : List Column → (String → Bool) → List ColReport × Bool
  | [], _ => ([], false)
  | c :: cs, w =>
      let (r, ab) := summarizeColumn c w
      if ab then ([r], true)
      else
        let (rs, ab2) := univariate_analysis cs w
        (r :: rs, ab2)

/-! ### Generic list lemmas -/

lemma sum_map_add {α : Type} (f g : α → ℕ) (l : List α) :
    (l.map (fun x => f x + g x)).sum = (l.map f).sum + (l.map g).sum := by
  induction l with
  | nil => rfl
  | cons x xs ih =>
      simp only [List.map_cons, List.sum_cons, ih]
      omega

lemma sum_indicator_range (k m : ℕ) (h : m < k) :
    ((List.range k).map (fun j => if m = j then 1 else 0)).sum = 1 := by
  induction k with
  | zero => omega
  | succ n ih =>
      rw [List.range_succ, List.map_append, List.sum_append]
      rcases Nat.lt_succ_iff_lt_or_eq.mp h with h' | h'
      · rw [ih h']
        simp [Nat.ne_of_lt h']
      · subst h'
        have hz : (((List.range m).map (fun j => if m = j then 1 else 0)).sum : ℕ) = 0 := by
          apply List.sum_eq_zero
          intro x hx
          obtain ⟨j, hj, rfl⟩ := List.mem_map.mp hx
          have : m ≠ j := Nat.ne_of_gt (List.mem_range.mp hj)
          simp [this]
        simp [hz]

lemma length_filter_partition {α : Type} (f : α → ℕ) (l : List α) (k : ℕ)
    (hk : ∀ v ∈ l, f v < k) :
    ((List.range k).map (fun j => (l.filter (fun v => f v == j)).length)).sum
      = l.length := by
  induction l with
  | nil => simp
  | cons x xs ih =>
      have hx : f x < k := hk x (List.mem_cons_self x xs)
      have hxs : ∀ v ∈ xs, f v < k := fun v hv => hk v (List.mem_cons_of_mem x hv)
      have step : ∀ j : ℕ, ((x :: xs).filter (fun v => f v == j)).length
          = (if f x = j then 1 else 0) + (xs.filter (fun v => f v == j)).length := by
        intro j
        by_cases hfx : f x = j
        · simp [List.filter_cons, hfx, Nat.add_comm]
        · simp [List.filter_cons, hfx]
      simp only [step]
      rw [sum_map_add, sum_indicator_range k (f x) hx, ih hxs]
      simp [Nat.add_comm]

lemma sum_indicator_eq_count {α : Type} [DecidableEq α] (a : α) (l : List α) :
    (l.map (fun v => if v = a then 1 else 0)).sum = l.count a := by
  induction l with
  | nil => rfl
  | cons x xs ih =>
      rw [List.map_cons, List.sum_cons, ih, List.count_cons]
      by_cases h : x = a <;> simp [h, Nat.add_comm]

lemma sum_counts_dedup {α : Type} [DecidableEq α] (l : List α) :
    (l.dedup.map (fun v => l.count v)).sum = l.length := by
  induction l with
  | nil => rfl
  | cons a l ih =>
      have hcount : ∀ v : α, (a :: l).count v = l.count v + (if v = a then 1 else 0) := by
        intro v
        rw [List.count_cons]
        by_cases h : a = v
        · subst h; simp
        · have h2 : ¬v = a := fun hv => h hv.symm
          simp [h, h2]
      by_cases ha : a ∈ l
      · rw [List.dedup_cons_of_mem ha]
        simp only [hcount]
        rw [sum_map_add, ih, sum_indicator_eq_count, List.count_dedup]
        simp [ha]
      · rw [List.dedup_cons_of_not_mem ha, List.map_cons, List.sum_cons]
        simp only [hcount]
        rw [sum_map_add, ih, sum_indicator_eq_count, List.count_dedup]
        have hz : l.count a = 0 := List.count_eq_zero_of_not_mem ha
        simp [ha, hz]
        omega

/-! ### Order statistics lemmas -/

instance : Std.Antisymm (fun a b : ℚ => a ≤ b) where
  antisymm h1 h2 := le_antisymm h1 h2

lemma sortedVals_perm (l : List ℚ) : (sortedVals l).Perm l :=
  List.perm_insertionSort _ l

lemma sortedVals_sorted (l : List ℚ) : (sortedVals l).Sorted (· ≤ ·) :=
  List.sorted_insertionSort _ l

lemma sortedVals_length (l : List ℚ) : (sortedVals l).length = l.length :=
  (sortedVals_perm l).length_eq

lemma sorted_getD_mono {l : List ℚ} (h : l.Sorted (· ≤ ·)) {i j : ℕ}
    (hij : i ≤ j) (hj : j < l.length) : l.getD i 0 ≤ l.getD j 0 := by
  have hi : i < l.length := lt_of_le_of_lt hij hj
  rw [List.getD_eq_getElem l 0 hi, List.getD_eq_getElem l 0 hj]
  exact h.rel_get_of_le (a := ⟨i, hi⟩) (b := ⟨j, hj⟩) hij

lemma min?_spec {l : List ℚ} (h : l ≠ []) :
    seriesMin l ∈ l ∧ ∀ b ∈ l, seriesMin l ≤ b := by
  obtain ⟨m, hm⟩ : ∃ m, l.min? = some m := by
    cases hq : l.min? with
    | none => exact absurd (List.min?_eq_none_iff.mp hq) h
    | some m => exact ⟨m, rfl⟩
  have := (List.min?_eq_some_iff (fun a => le_refl a) (fun a b => min_choice a b)
    (fun a b c => le_min_iff)).mp hm
  simpa [seriesMin, hm] using this

lemma max?_spec {l : List ℚ} (h : l ≠ []) :
    seriesMax l ∈ l ∧ ∀ b ∈ l, b ≤ seriesMax l := by
  obtain ⟨m, hm⟩ : ∃ m, l.max? = some m := by
    cases hq : l.max? with
    | none => exact absurd (List.max?_eq_none_iff.mp hq) h
    | some m => exact ⟨m, rfl⟩
  have := (List.max?_eq_some_iff (fun a => le_refl a) (fun a b => max_choice a b)
    (fun a b c => max_le_iff)).mp hm
  simpa [seriesMax, hm] using this

lemma sortedVals_getD_zero {l : List ℚ} (h : l ≠ []) :
    (sortedVals l).getD 0 0 = seriesMin l := by
  have hperm := sortedVals_perm l
  have hlen : 0 < (sortedVals l).length := by
    rw [sortedVals_length]
    exact List.length_pos.mpr h
  obtain ⟨hmem, hle⟩ := min?_spec h
  have hhead_mem : (sortedVals l).getD 0 0 ∈ l := by
    rw [List.getD_eq_getElem _ 0 hlen]
    exact hperm.mem_iff.mp (List.getElem_mem _)
  have h1 : seriesMin l ≤ (sortedVals l).getD 0 0 := hle _ hhead_mem
  have h2 : (sortedVals l).getD 0 0 ≤ seriesMin l := by
    have hmem' : seriesMin l ∈ sortedVals l := hperm.mem_iff.mpr hmem
    obtain ⟨k, hk, hkeq⟩ := List.mem_iff_getElem.mp hmem'
    calc (sortedVals l).getD 0 0 ≤ (sortedVals l).getD k 0 :=
          sorted_getD_mono (sortedVals_sorted l) (Nat.zero_le k) hk
      _ = seriesMin l := by rw [List.getD_eq_getElem _ 0 hk, hkeq]
  exact le_antisymm h2 h1

lemma sortedVals_getD_last {l : List ℚ} (h : l ≠ []) :
    (sortedVals l).getD (l.length - 1) 0 = seriesMax l := by
  have hperm := sortedVals_perm l
  have hpos : 0 < l.length := List.length_pos.mpr h
  have hlast : l.length - 1 < (sortedVals l).length := by
    rw [sortedVals_length]
    omega
  obtain ⟨hmem, hge⟩ := max?_spec h
  have hlast_mem : (sortedVals l).getD (l.length - 1) 0 ∈ l := by
    rw [List.getD_eq_getElem _ 0 hlast]
    exact hperm.mem_iff.mp (List.getElem_mem _)
  have h1 : (sortedVals l).getD (l.length - 1) 0 ≤ seriesMax l := hge _ hlast_mem
  have h2 : seriesMax l ≤ (sortedVals l).getD (l.length - 1) 0 := by
    have hmem' : seriesMax l ∈ sortedVals l := hperm.mem_iff.mpr hmem
    obtain ⟨k, hk, hkeq⟩ := List.mem_iff_getElem.mp hmem'
    have hk' : k ≤ l.length - 1 := by
      have := hk
      rw [sortedVals_length] at this
      omega
    calc seriesMax l = (sortedVals l).getD k 0 := by rw [List.getD_eq_getElem _ 0 hk, hkeq]
      _ ≤ (sortedVals l).getD (l.length - 1) 0 :=
          sorted_getD_mono (sortedVals_sorted l) hk' hlast
  exact le_antisymm h1 h2

/-! ### Percentile lemmas -/

lemma interpolateAt_mono {srt : List ℚ} (hs : srt.Sorted (· ≤ ·))
    {r s : ℚ} (hr0 : 0 ≤ r) (hrs : r ≤ s) (hsN : s ≤ (srt.length : ℚ) - 1) :
    interpolateAt srt r ≤ interpolateAt srt s := by
  have hs0 : 0 ≤ s := le_trans hr0 hrs
  have hn1 : 1 ≤ srt.length := by
    rcases Nat.eq_zero_or_pos srt.length with h0 | h
    · exfalso
      rw [h0] at hsN
      push_cast at hsN
      linarith
    · exact h
  set n := srt.length with hn
  set i := (Int.floor r).toNat with hidef
  set j := (Int.floor s).toNat with hjdef
  have hfr0 : (0 : ℤ) ≤ Int.floor r := Int.floor_nonneg.mpr hr0
  have hfs0 : (0 : ℤ) ≤ Int.floor s := Int.floor_nonneg.mpr hs0
  have hicast : ((i : ℕ) : ℚ) = ((Int.floor r : ℤ) : ℚ) := by
    rw [hidef]
    exact_mod_cast congrArg (fun z : ℤ => (z : ℚ)) (Int.toNat_of_nonneg hfr0)
  have hjcast : ((j : ℕ) : ℚ) = ((Int.floor s : ℤ) : ℚ) := by
    rw [hjdef]
    exact_mod_cast congrArg (fun z : ℤ => (z : ℚ)) (Int.toNat_of_nonneg hfs0)
  have hi_le_r : ((i : ℕ) : ℚ) ≤ r := by
    rw [hicast]
    exact Int.floor_le r
  have hr_lt : r < ((i : ℕ) : ℚ) + 1 := by
    rw [hicast]
    exact Int.lt_floor_add_one r
  have hj_le_s : ((j : ℕ) : ℚ) ≤ s := by
    rw [hjcast]
    exact Int.floor_le s
  have hij : i ≤ j := by
    rw [hidef, hjdef]
    exact Int.toNat_le_toNat (Int.floor_le_floor hrs)
  have hjn : j < n := by
    have hcast : ((j : ℕ) : ℚ) ≤ (n : ℚ) - 1 := le_trans hj_le_s hsN
    have : ((j + 1 : ℕ) : ℚ) ≤ (n : ℚ) := by
      push_cast
      linarith
    exact Nat.lt_of_succ_le (by exact_mod_cast this)
  show srt.getD i 0 + (r - (i : ℚ)) * (srt.getD (i + 1) 0 - srt.getD i 0)
      ≤ srt.getD j 0 + (s - (j : ℚ)) * (srt.getD (j + 1) 0 - srt.getD j 0)
  rcases Nat.lt_or_ge i j with hlt | hge
  · -- strictly lower bracket: pass through the order statistics between them
    have hi1j : i + 1 ≤ j := hlt
    have hi1n : i + 1 < n := lt_of_le_of_lt hi1j hjn
    have ha1 : srt.getD i 0 ≤ srt.getD (i + 1) 0 :=
      sorted_getD_mono hs (Nat.le_succ i) hi1n
    have hup : srt.getD i 0 + (r - (i : ℚ)) * (srt.getD (i + 1) 0 - srt.getD i 0)
        ≤ srt.getD (i + 1) 0 := by nlinarith [hr_lt, ha1, hi_le_r]
    have hmid : srt.getD (i + 1) 0 ≤ srt.getD j 0 :=
      sorted_getD_mono hs hi1j hjn
    rcases Nat.lt_or_ge (j + 1) n with hj1n | hj1n
    · have ha2 : srt.getD j 0 ≤ srt.getD (j + 1) 0 :=
        sorted_getD_mono hs (Nat.le_succ j) hj1n
      nlinarith [hj_le_s, ha2]
    · -- `j` is the last index, so `s = j` and the interpolation term vanishes
      have hjeq : j = n - 1 := by omega
      have hjq : ((j : ℕ) : ℚ) = (n : ℚ) - 1 := by
        rw [hjeq]
        push_cast [Nat.cast_sub hn1]
        ring
      have hsj : s = ((j : ℕ) : ℚ) := le_antisymm (hjq ▸ hsN) hj_le_s
      rw [← hsj]
      have : s - s = 0 := by ring
      nlinarith [hup, hmid]
  · -- same bracket
    have heq : i = j := le_antisymm hij hge
    rw [heq] at hi_le_r hr_lt ⊢
    rcases Nat.lt_or_ge (j + 1) n with hi1n | hi1n
    · have ha1 : srt.getD j 0 ≤ srt.getD (j + 1) 0 :=
        sorted_getD_mono hs (Nat.le_succ j) hi1n
      nlinarith [hrs, ha1]
    · -- `j` is the last index, forcing `r = s`
      have hiq : ((j : ℕ) : ℚ) ≥ (n : ℚ) - 1 := by
        have : (n : ℚ) ≤ ((j : ℕ) : ℚ) + 1 := by exact_mod_cast hi1n
        linarith
      have hrs' : s ≤ r := le_trans hsN (le_trans hiq hi_le_r)
      have hre : r = s := le_antisymm hrs hrs'
      rw [hre]

lemma percentile_mono {l : List ℚ} (h : l ≠ []) {p q : ℚ}
    (hp : 0 ≤ p) (hpq : p ≤ q) (hq : q ≤ 100) :
    percentile l p ≤ percentile l q := by
  have hpos : 0 < l.length := List.length_pos.mpr h
  have hN : (0 : ℚ) ≤ ((sortedVals l).length : ℚ) - 1 := by
    rw [sortedVals_length]
    have : (1 : ℚ) ≤ (l.length : ℚ) := by exact_mod_cast hpos
    linarith
  unfold percentile
  apply interpolateAt_mono (sortedVals_sorted l)
  · exact div_nonneg (mul_nonneg hp hN) (by norm_num)
  · apply div_le_div_of_nonneg_right ?_ (by norm_num)
    exact mul_le_mul_of_nonneg_right hpq hN
  · rw [div_le_iff₀ (by norm_num : (0 : ℚ) < 100)]
    nlinarith [hN, hq]

lemma percentile_zero {l : List ℚ} (h : l ≠ []) : percentile l 0 = seriesMin l := by
  unfold percentile interpolateAt
  simp only [zero_mul, zero_div, Int.floor_zero, Int.toNat_zero, Nat.cast_zero,
    sub_zero, zero_sub, sub_self]
  rw [sortedVals_getD_zero h]
  ring

lemma percentile_hundred {l : List ℚ} (h : l ≠ []) : percentile l 100 = seriesMax l := by
  have hpos : 0 < l.length := List.length_pos.mpr h
  simp only [percentile, interpolateAt, sortedVals_length]
  have hr : (100 : ℚ) * ((l.length : ℚ) - 1) / 100 = (l.length : ℚ) - 1 := by
    field_simp
  rw [hr]
  have hfloor : Int.floor ((l.length : ℚ) - 1) = (l.length : ℤ) - 1 := by
    have : ((l.length : ℚ) - 1) = (((l.length : ℤ) - 1 : ℤ) : ℚ) := by push_cast; ring
    rw [this, Int.floor_intCast]
  rw [hfloor]
  have htoNat : ((l.length : ℤ) - 1).toNat = l.length - 1 := by omega
  rw [htoNat]
  have hg : (l.length : ℚ) - 1 - ((l.length - 1 : ℕ) : ℚ) = 0 := by
    push_cast [Nat.cast_sub hpos]
    ring
  rw [hg, zero_mul, add_zero]
  exact sortedVals_getD_last h

/-! ### Histogram binning lemmas -/

lemma cutAdjust_nonneg (x : ℚ) : 0 ≤ cutAdjust x := by
  unfold cutAdjust
  split <;> positivity

lemma bin_count_pos {l : List ℚ} (h : l ≠ []) : 0 < bin_count l := by
  unfold bin_count
  have hne : l.dedup ≠ [] := fun hd => h ((List.dedup_eq_nil l).mp hd)
  have := List.length_pos.mpr hne
  omega

lemma le_cutEdge_last {l : List ℚ} (h : l ≠ []) {v : ℚ} (hv : v ∈ l) :
    v ≤ cutEdge (seriesMin l) (seriesMax l) (bin_count l) (bin_count l) := by
  have hk : 0 < bin_count l := bin_count_pos h
  have hkq : ((bin_count l : ℕ) : ℚ) ≠ 0 := by
    exact_mod_cast hk.ne'
  have hvmax : v ≤ seriesMax l := (max?_spec h).2 v hv
  unfold cutEdge
  by_cases he : seriesMin l = seriesMax l
  · rw [if_pos he]
    rw [mul_div_cancel_left₀ _ hkq]
    have := cutAdjust_nonneg (seriesMax l)
    linarith
  · rw [if_neg he, if_neg hk.ne']
    rw [mul_div_cancel_left₀ _ hkq]
    linarith

lemma binIdx_lt_bin_count {l : List ℚ} (h : l ≠ []) {v : ℚ} (hv : v ∈ l) :
    binIdx (seriesMin l) (seriesMax l) (bin_count l) v < bin_count l := by
  have hk : 0 < bin_count l := bin_count_pos h
  have hlast := le_cutEdge_last h hv
  unfold binIdx
  have hex : ∃ j ∈ List.range (bin_count l),
      (decide (v ≤ cutEdge (seriesMin l) (seriesMax l) (bin_count l) (j + 1))) = true := by
    refine ⟨bin_count l - 1, List.mem_range.mpr (by omega), ?_⟩
    rw [decide_eq_true_eq]
    have heq : bin_count l - 1 + 1 = bin_count l := by omega
    rw [heq]
    exact hlast
  obtain ⟨j', hj'⟩ := Option.isSome_iff_exists.mp (List.find?_isSome.mpr hex)
  rw [hj']
  simp only [Option.getD_some]
  exact List.mem_range.mp (List.mem_of_find?_eq_some hj')

lemma freqBins_length (l : List ℚ) : (freqBins l).length = bin_count l := by
  unfold freqBins
  rw [List.length_map, List.length_range]

lemma freqBins_sum {l : List ℚ} (h : l ≠ []) :
    ((freqBins l).map (fun b => b.2)).sum = l.length := by
  unfold freqBins
  rw [List.map_map]
  exact length_filter_partition _ l (bin_count l)
    (fun v hv => binIdx_lt_bin_count h hv)

/-! ### Mode lemmas -/

lemma modeList_ne_nil {l : List ℚ} (h : l ≠ []) : modeList l ≠ [] := by
  unfold modeList
  have hd : l.dedup ≠ [] := fun hd => h ((List.dedup_eq_nil l).mp hd)
  obtain ⟨m, hm⟩ : ∃ m, l.dedup.argmax (fun v => l.count v) = some m := by
    cases hq : l.dedup.argmax (fun v => l.count v) with
    | none => exact absurd (List.argmax_eq_none.mp hq) hd
    | some m => exact ⟨m, rfl⟩
  have hmmem : m ∈ l.dedup := List.argmax_mem (Option.mem_def.mpr hm)
  have hmax : ∀ u ∈ l, l.count u ≤ l.count m := by
    intro u hu
    exact List.le_of_mem_argmax ((List.mem_dedup).mpr hu) (Option.mem_def.mpr hm)
  have hfilter : m ∈ l.dedup.filter (fun v => l.all (fun u => l.count u ≤ l.count v)) := by
    rw [List.mem_filter]
    refine ⟨hmmem, ?_⟩
    rw [List.all_eq_true]
    intro u hu
    exact decide_eq_true (hmax u hu)
  intro hnil
  have hperm := List.perm_insertionSort (fun a b : ℚ => a ≤ b)
    (l.dedup.filter (fun v => l.all (fun u => l.count u ≤ l.count v)))
  rw [hnil] at hperm
  have hempty := hperm.symm.eq_nil
  rw [hempty] at hfilter
  exact absurd hfilter (List.not_mem_nil m)

/-! ### Frequency table lemmas -/

instance : IsTotal (String × ℕ) (fun a b => b.2 ≤ a.2) :=
  ⟨fun a b => le_total b.2 a.2⟩

instance : IsTrans (String × ℕ) (fun a b => b.2 ≤ a.2) :=
  ⟨fun _ _ _ h1 h2 => le_trans h2 h1⟩

lemma value_counts_perm (l : List String) :
    (value_counts l).Perm (l.dedup.map (fun v => (v, l.count v))) :=
  List.perm_insertionSort _ _

lemma value_counts_sorted (l : List String) :
    (value_counts l).Sorted (fun a b => b.2 ≤ a.2) :=
  List.sorted_insertionSort _ _

lemma value_counts_length (l : List String) :
    (value_counts l).length = l.dedup.length := by
  rw [(value_counts_perm l).length_eq, List.length_map]

lemma value_counts_sum (l : List String) :
    ((value_counts l).map (fun p => p.2)).sum = l.length := by
  have hperm := (value_counts_perm l).map (fun p : String × ℕ => p.2)
  rw [hperm.sum_eq, List.map_map]
  exact sum_counts_dedup l

lemma value_counts_eq_nil_iff (l : List String) : value_counts l = [] ↔ l = [] := by
  constructor
  · intro hnil
    have hp := value_counts_perm l
    rw [hnil] at hp
    have hm := hp.symm.eq_nil
    rw [List.map_eq_nil_iff] at hm
    exact (List.dedup_eq_nil l).mp hm
  · intro hl
    rw [hl]
    rfl

lemma dropna_length_add_isnaSum (s : List (Option ℚ)) :
    (dropna s).length + isnaSum s = s.length := by
  induction s with
  | nil => rfl
  | cons c cs ih =>
      cases c with
      | none =>
          simp [dropna, isnaSum, List.filterMap_cons, List.filter_cons] at ih ⊢
          omega
      | some v =>
          simp [dropna, isnaSum, List.filterMap_cons, List.filter_cons] at ih ⊢
          omega

/-! ## Claims -/

/-- C1 (counterexample): the claim "reported count + missing count = total
row count" fails on the code, which reports `Obs = len(series)` — a total
that already includes the missing cells.  On the series `[1, NaN]` the
report shows `Obs=2, Missing=1`, and `2 + 1 ≠ 2`. -/
theorem C1_count_counterexample :
    dropna [some (1 : ℚ), none] ≠ [] ∧
    (numericSummaryOf [some (1 : ℚ), none]).obs
        + (numericSummaryOf [some (1 : ℚ), none]).missing
      ≠ ([some (1 : ℚ), none] : List (Option ℚ)).length := by
  decide

/-- C1 (amended): for every numeric column with at least one present value,
the reported count `Obs` itself equals the total row count, and the number
of present values plus the reported missing count equals the reported
count. -/
theorem C1_count_amended (s : List (Option ℚ)) (h : dropna s ≠ []) :
    (numericSummaryOf s).obs = s.length ∧
    (dropna s).length + (numericSummaryOf s).missing = (numericSummaryOf s).obs := by
  refine ⟨rfl, ?_⟩
  show (dropna s).length + isnaSum s = s.length
  exact dropna_length_add_isnaSum s

/-- C1 (witness): the amended claim applied to the series `[1, NaN]`. -/
theorem C1_count_witness :
    (numericSummaryOf [some (1 : ℚ), none]).obs
        = ([some (1 : ℚ), none] : List (Option ℚ)).length ∧
    (dropna [some (1 : ℚ), none]).length
        + (numericSummaryOf [some (1 : ℚ), none]).missing
      = (numericSummaryOf [some (1 : ℚ), none]).obs :=
  C1_count_amended [some (1 : ℚ), none] (by decide)

/-- C5 (counterexample): the claim "Numeric iff the element type is an
integer or floating-point number" fails: `pd.api.types.is_numeric_dtype` is
also true for boolean columns (which `read_csv` infers for True/False
data), so a boolean column — neither integer nor float — is classified
Numeric. -/
theorem C5_classifier_counterexample :
    classifyColumn Dtype.boolean = Kind.numeric ∧
    Dtype.boolean ≠ Dtype.int64 ∧ Dtype.boolean ≠ Dtype.float64 := by
  decide

/-- C5 (amended): the classifier returns Numeric exactly for the dtypes
pandas counts as numeric — integer, floating point, or boolean — and
Categorical otherwise; it is total (always yields one of the two kinds). -/
theorem C5_classifier_amended (d : Dtype) :
    (classifyColumn d = Kind.numeric
        ↔ (d = Dtype.int64 ∨ d = Dtype.float64 ∨ d = Dtype.boolean)) ∧
    (classifyColumn d = Kind.numeric ∨ classifyColumn d = Kind.categorical) := by
  cases d <;> decide

/-- C9: a numeric column whose present set is empty yields only the
`[No valid data to summarize]` outcome — no statistics record, no
histogram, no chart, no abort — and the orchestrator continues with the
remaining columns exactly as if the column contributed just that note. -/
theorem C9_all_missing_numeric (s : List (Option ℚ)) (name : String)
    (w : String → Bool) (cols : List Column) (h : dropna s = []) :
    summarize_numeric s name w = (NumOutcome.noData, false) ∧
    univariate_analysis (⟨name, .numericData s⟩ :: cols) w
      = (ColReport.numericR name NumOutcome.noData :: (univariate_analysis cols w).1,
         (univariate_analysis cols w).2) := by
  have h1 : summarize_numeric s name w = (NumOutcome.noData, false) := by
    unfold summarize_numeric
    rw [h]
    rfl
  refine ⟨h1, ?_⟩
  show (let (r, ab) := summarizeColumn ⟨name, .numericData s⟩ w
        if ab then ([r], true)
        else
          let (rs, ab2) := univariate_analysis cols w
          (r :: rs, ab2)) = _
  have h2 : summarizeColumn ⟨name, .numericData s⟩ w
      = (ColReport.numericR name NumOutcome.noData, false) := by
    simp [summarizeColumn, h1]
  rw [h2]
  simp

/-- C9 (witness): the all-missing column `[NaN]` ahead of an empty tail. -/
theorem C9_all_missing_witness :
    summarize_numeric [none] "x" (fun _ => true) = (NumOutcome.noData, false) ∧
    univariate_analysis (⟨"x", .numericData [none]⟩ :: []) (fun _ => true)
      = (ColReport.numericR "x" NumOutcome.noData
            :: (univariate_analysis [] (fun _ => true)).1,
         (univariate_analysis [] (fun _ => true)).2) :=
  C9_all_missing_numeric [none] "x" (fun _ => true) [] (by decide)

/-- C10: once the empty check has passed, the mode list of the present
values is non-empty, so the summary's mode is never the `np.nan` fallback
of line 48 — that branch is unreachable. -/
theorem C10_mode_fallback_unreachable (s : List (Option ℚ)) (h : dropna s ≠ []) :
    modeList (dropna s) ≠ [] ∧ (numericSummaryOf s).mode ≠ none := by
  have hm := modeList_ne_nil h
  refine ⟨hm, ?_⟩
  show (match modeList (dropna s) with
        | [] => none
        | x :: _ => some x) ≠ none
  cases hml : modeList (dropna s) with
  | nil => exact absurd hml hm
  | cons x xs => simp

/-- C10 (witness): the singleton series `[1]`. -/
theorem C10_mode_witness :
    modeList (dropna [some (1 : ℚ)]) ≠ [] ∧
    (numericSummaryOf [some (1 : ℚ)]).mode ≠ none :=
  C10_mode_fallback_unreachable [some (1 : ℚ)] (by decide)

/-- C6: for a numeric column with at least one present value, the histogram
has exactly `min(distinct present values, 20)` bins and the bin counts sum
to the number of present values. -/
theorem C6_histogram_bins (s : List (Option ℚ)) (h : dropna s ≠ []) :
    (numericSummaryOf s).freq.length = min (dropna s).dedup.length 20 ∧
    ((numericSummaryOf s).freq.map (fun b => b.2)).sum = (dropna s).length := by
  constructor
  · show (freqBins (dropna s)).length = _
    rw [freqBins_length]
    rfl
  · show ((freqBins (dropna s)).map (fun b => b.2)).sum = _
    exact freqBins_sum h

/-- C6 (witness): the series `[1, 2, 2, NaN]`. -/
theorem C6_histogram_witness :
    (numericSummaryOf [some (1 : ℚ), some 2, some 2, none]).freq.length
        = min (dropna [some (1 : ℚ), some 2, some 2, none]).dedup.length 20 ∧
    ((numericSummaryOf [some (1 : ℚ), some 2, some 2, none]).freq.map
        (fun b => b.2)).sum
      = (dropna [some (1 : ℚ), some 2, some 2, none]).length :=
  C6_histogram_bins [some (1 : ℚ), some 2, some 2, none] (by decide)

/-- C8: for a numeric column with at least one present value, the computed
percentile values for `{0,1,5,25,50,75,95,99,100}` are non-decreasing in
percentile order, the `p=0` value is the minimum of the present values and
the `p=100` value is their maximum. -/
theorem C8_percentiles_monotone (s : List (Option ℚ)) (h : dropna s ≠ []) :
    List.Chain' (· ≤ ·) (numericSummaryOf s).pct ∧
    (numericSummaryOf s).pct.headD 0 = seriesMin (dropna s) ∧
    (numericSummaryOf s).pct.getLastD 0 = seriesMax (dropna s) := by
  have hpct : (numericSummaryOf s).pct = pctiles.map (percentile (dropna s)) := rfl
  rw [hpct]
  simp only [pctiles, List.map_cons, List.map_nil]
  refine ⟨?_, ?_, ?_⟩
  · simp only [List.chain'_cons, List.chain'_singleton, and_true]
    refine ⟨?_, ?_, ?_, ?_, ?_, ?_, ?_, ?_⟩ <;>
      exact percentile_mono h (by norm_num) (by norm_num) (by norm_num)
  · rw [List.headD_cons]
    exact percentile_zero h
  · simp only [List.getLastD_cons]
    exact percentile_hundred h

/-- C8 (witness): the series `[3, 1, 2]`. -/
theorem C8_percentiles_witness :
    List.Chain' (· ≤ ·) (numericSummaryOf [some (3 : ℚ), some 1, some 2]).pct ∧
    (numericSummaryOf [some (3 : ℚ), some 1, some 2]).pct.headD 0
        = seriesMin (dropna [some (3 : ℚ), some 1, some 2]) ∧
    (numericSummaryOf [some (3 : ℚ), some 1, some 2]).pct.getLastD 0
        = seriesMax (dropna [some (3 : ℚ), some 1, some 2]) :=
  C8_percentiles_monotone [some (3 : ℚ), some 1, some 2] (by decide)

lemma summarize_categorical_gt50 {l : List String} (name : String)
    (w : String → Bool) (h : 50 < (value_counts l).length) :
    summarize_categorical l name w =
      ({ uniqueCount := (value_counts l).length,
         shown := (value_counts l).take 10,
         moreNote := some ((value_counts l).length - 10),
         mostLeast :=
           match idxmaxEntry (value_counts l), idxminEntry (value_counts l) with
           | some mf, some lf => some (mf, lf)
           | _, _ => none,
         chart := none }, false) := by
  simp only [summarize_categorical]
  rw [if_pos h, if_pos h, if_pos h]

lemma summarize_categorical_shown (l : List String) (name : String)
    (w : String → Bool) :
    (summarize_categorical l name w).1.shown
      = if (value_counts l).length > 50 then (value_counts l).take 10
        else value_counts l := by
  simp only [summarize_categorical]
  split
  · rfl
  · split <;> rfl

lemma summarize_categorical_mostLeast (l : List String) (name : String)
    (w : String → Bool) :
    (summarize_categorical l name w).1.mostLeast
      = match idxmaxEntry (value_counts l), idxminEntry (value_counts l) with
        | some mf, some lf => some (mf, lf)
        | _, _ => none := by
  simp only [summarize_categorical]
  split
  · rfl
  · split <;> rfl

/-- C3: the categorical summary displays the full frequency table exactly
when there are at most 50 distinct categories; above 50 it shows exactly
the top 10 rows plus a remainder note, produces no chart, and does not
abort the run. -/
theorem C3_truncation (l : List String) (name : String) (w : String → Bool) :
    ((summarize_categorical l name w).1.shown = value_counts l
        ↔ (value_counts l).length ≤ 50) ∧
    (50 < (value_counts l).length →
      (summarize_categorical l name w).1.shown = (value_counts l).take 10 ∧
      (summarize_categorical l name w).1.shown.length = 10 ∧
      (summarize_categorical l name w).1.moreNote
          = some ((value_counts l).length - 10) ∧
      (summarize_categorical l name w).1.chart = none ∧
      (summarize_categorical l name w).2 = false) := by
  constructor
  · constructor
    · intro hshown
      by_contra h50
      push_neg at h50
      rw [summarize_categorical_gt50 name w h50] at hshown
      have hlen := congrArg List.length hshown
      simp only [List.length_take] at hlen
      omega
    · intro hle
      rw [summarize_categorical_shown]
      rw [if_neg (by omega)]
  · intro h50
    rw [summarize_categorical_gt50 name w h50]
    refine ⟨rfl, ?_, rfl, rfl, rfl⟩
    show ((value_counts l).take 10).length = 10
    rw [List.length_take]
    omega

/-- C3 (witness): the single-category column `["a"]` (non-truncated side of
the equivalence). -/
theorem C3_truncation_witness :
    ((summarize_categorical ["a"] "c" (fun _ => true)).1.shown
        = value_counts ["a"] ↔ (value_counts ["a"]).length ≤ 50) ∧
    (50 < (value_counts ["a"]).length →
      (summarize_categorical ["a"] "c" (fun _ => true)).1.shown
          = (value_counts ["a"]).take 10 ∧
      (summarize_categorical ["a"] "c" (fun _ => true)).1.shown.length = 10 ∧
      (summarize_categorical ["a"] "c" (fun _ => true)).1.moreNote
          = some ((value_counts ["a"]).length - 10) ∧
      (summarize_categorical ["a"] "c" (fun _ => true)).1.chart = none ∧
      (summarize_categorical ["a"] "c" (fun _ => true)).2 = false) :=
  C3_truncation ["a"] "c" (fun _ => true)

/-- A column holding 51 pairwise-distinct category labels. -/
def manyCats : List String := (List.range 51).map (fun n => toString n)

/-- C4 (counterexample): the claim that the most/least-frequent report is
suppressed when distinct categories exceed 50 fails: lines 88–91 print it
before the `> 50` early return, so on 51 distinct categories the report is
still emitted. -/
theorem C4_mostLeast_counterexample :
    50 < (value_counts manyCats).length ∧
    (summarize_categorical manyCats "c" (fun _ => true)).1.mostLeast ≠ none := by
  decide

/-- C4 (amended): the most-frequent / least-frequent lines are emitted
whenever the column has at least one row — regardless of truncation; only
the chart is suppressed in the truncated case. -/
theorem C4_mostLeast_amended (l : List String) (name : String)
    (w : String → Bool) :
    ((summarize_categorical l name w).1.mostLeast).isSome = true ↔ l ≠ [] := by
  rw [summarize_categorical_mostLeast]
  constructor
  · intro hsome hl
    subst hl
    exact absurd hsome (by decide)
  · intro hl
    have hc : value_counts l ≠ [] :=
      fun hcn => hl ((value_counts_eq_nil_iff l).mp hcn)
    obtain ⟨mf, hmf⟩ : ∃ mf, idxmaxEntry (value_counts l) = some mf := by
      cases hq : idxmaxEntry (value_counts l) with
      | none => exact absurd (List.argmax_eq_none.mp hq) hc
      | some mf => exact ⟨mf, rfl⟩
    obtain ⟨lf, hlf⟩ : ∃ lf, idxminEntry (value_counts l) = some lf := by
      cases hq : idxminEntry (value_counts l) with
      | none => exact absurd (List.argmin_eq_none.mp hq) hc
      | some lf => exact ⟨lf, rfl⟩
    rw [hmf, hlf]
    rfl

/-- C4 (amended, witness): the singleton column `["a"]`. -/
theorem C4_mostLeast_witness :
    ((summarize_categorical ["a"] "c" (fun _ => true)).1.mostLeast).isSome = true
      ↔ (["a"] : List String) ≠ [] :=
  C4_mostLeast_amended ["a"] "c" (fun _ => true)

/-- C7: coercing a column to text turns missing cells into their own
category, so the frequency counts sum to the total row count; whenever the
most/least-frequent pair is reported, the most-frequent count bounds every
count from above and the least-frequent count bounds every count from
below. -/
theorem C7_frequency_bounds (l : List (Option String)) (name : String)
    (w : String → Bool) :
    (((value_counts (l.map astypeStr)).map (fun p => p.2)).sum = l.length) ∧
    (∀ mf lf,
      (summarize_categorical (l.map astypeStr) name w).1.mostLeast = some (mf, lf) →
      ∀ p ∈ value_counts (l.map astypeStr), p.2 ≤ mf.2 ∧ lf.2 ≤ p.2) := by
  constructor
  · rw [value_counts_sum, List.length_map]
  · intro mf lf hml p hp
    rw [summarize_categorical_mostLeast] at hml
    cases hmax : idxmaxEntry (value_counts (l.map astypeStr)) with
    | none =>
        rw [hmax] at hml
        cases hmin : idxminEntry (value_counts (l.map astypeStr)) <;>
          rw [hmin] at hml <;> exact absurd hml (by simp)
    | some mf' =>
        cases hmin : idxminEntry (value_counts (l.map astypeStr)) with
        | none =>
            rw [hmax, hmin] at hml
            exact absurd hml (by simp)
        | some lf' =>
            rw [hmax, hmin] at hml
            have hpair : mf' = mf ∧ lf' = lf := by
              have := Option.some.inj hml
              exact ⟨congrArg Prod.fst this, congrArg Prod.snd this⟩
            obtain ⟨h1, h2⟩ := hpair
            subst h1
            subst h2
            exact ⟨List.le_of_mem_argmax hp (Option.mem_def.mpr hmax),
                   List.le_of_mem_argmin hp (Option.mem_def.mpr hmin)⟩

/-- C7 (witness): the column `["a", missing, "a"]`. -/
theorem C7_frequency_witness :
    (((value_counts ([some "a", none, some "a"].map astypeStr)).map
        (fun p => p.2)).sum = ([some "a", none, some "a"] : List (Option String)).length) ∧
    (∀ mf lf,
      (summarize_categorical ([some "a", none, some "a"].map astypeStr) "c"
          (fun _ => true)).1.mostLeast = some (mf, lf) →
      ∀ p ∈ value_counts ([some "a", none, some "a"].map astypeStr),
        p.2 ≤ mf.2 ∧ lf.2 ≤ p.2) :=
  C7_frequency_bounds [some "a", none, some "a"] "c" (fun _ => true)

/-- A write environment in which every chart write fails. -/
def failAllWrites : String → Bool := fun _ => false

/-- C2 (counterexample): the claim that a chart-write failure is contained
to its column fails: `save_bar_plot` has no try/except, so the exception
propagates to `main`'s catch-all and ends the analysis.  On two numeric
columns with all writes failing, the run aborts after the first column and
the second is never summarized (one report for two columns). -/
theorem C2_chart_failure_counterexample :
    (univariate_analysis
        [⟨"a", .numericData [some 1]⟩, ⟨"b", .numericData [some 2]⟩]
        failAllWrites).2 = true ∧
    (univariate_analysis
        [⟨"a", .numericData [some 1]⟩, ⟨"b", .numericData [some 2]⟩]
        failAllWrites).1.length = 1 ∧
    ([⟨"a", .numericData [some 1]⟩, ⟨"b", .numericData [some 2]⟩]
        : List Column).length = 2 := by
  decide

/-- C2 (amended): a chart-write failure in any column aborts the run: the
failing column's summary (printed before the write attempt) is the last
report, the abort flag reaches the top-level handler in `main`, and no
subsequent column is summarized. -/
theorem C2_chart_failure_amended (c : Column) (cs : List Column)
    (w : String → Bool) (h : (summarizeColumn c w).2 = true) :
    univariate_analysis (c :: cs) w = ([(summarizeColumn c w).1], true) := by
  have hsc : summarizeColumn c w = ((summarizeColumn c w).1, true) := by
    rw [← h]
  show (let (r, ab) := summarizeColumn c w
        if ab then ([r], true)
        else
          let (rs, ab2) := univariate_analysis cs w
          (r :: rs, ab2)) = _
  rw [hsc]
  simp

/-- C2 (amended, witness): a failing write on the first of two columns. -/
theorem C2_chart_failure_witness :
    univariate_analysis
        (⟨"a", .numericData [some 1]⟩ :: [⟨"b", .numericData [some 2]⟩])
        failAllWrites
      = ([(summarizeColumn ⟨"a", .numericData [some 1]⟩ failAllWrites).1], true) :=
  C2_chart_failure_amended ⟨"a", .numericData [some 1]⟩
    [⟨"b", .numericData [some 2]⟩] failAllWrites (by decide)

end Universal
